import Mathlib

/-!
Verification development for the single-file program
`src/youtube_to_openwebui.py` (a YouTube transcript downloader).

The embedding works on `Str := List Char` (Python strings are modelled as
character lists).  Pure helpers of the Python standard library that the
program calls (`str.split`, the `in` operator, `urllib.parse.parse_qs`,
`re.sub` on a fixed character class) are modelled as executable Lean
functions with the same observable behaviour on the inputs the program can
produce; CPython `unquote` decodes UTF-8 percent escapes, which this model
renders byte-wise (it agrees on all single-byte escapes, and the claims only
involve escape-free inputs).  Python `str.isalnum` is Unicode-aware; it is
modelled by `Char.isAlphanum` (the ASCII range), which the claims do not
distinguish because every character of the reserved filename set is ASCII.

External effects are oracles in an `Env` record: the caption fetch
(`YouTubeTranscriptApi` plus the text formatter, exceptions collapsed to
`none`), the oEmbed metadata request (`none` models a raised exception,
`some (t, a)` a JSON object whose optional fields are `t` and `a`), and
file-write failure.  The persisted directory is a list of
(filename, content) pairs; the run-scoped dedup set is a list of
identifiers.  The per-URL body of `main` (lines 188-221) becomes
`processUrl`, which also returns a `Trace` recording whether the caption
fetch (line 209) and the metadata fetch (line 213) were invoked, whether
the already-exists warning (line 206) was printed, and the outcome.
-/

abbrev Str := List Char

/-- Python substring test `pat in l` (membership of `pat` as a contiguous
substring of `l`). -/
def pyContains (l pat : Str) : Bool :=
  match l with
  | [] => pat.isEmpty
  | _ :: rest => pat.isPrefixOf l || pyContains rest pat

/-- Python `s.split(sep)` generalised to a Boolean separator predicate:
splits at every character satisfying `p`, keeping empty pieces.  The result
is always nonempty. -/
def splitOnP (p : Char → Bool) : Str → List Str
  | [] => [[]]
  | c :: rest =>
    if p c then [] :: splitOnP p rest
    else (splitOnP p rest).modifyHead (fun w => c :: w)

/-- Python `s.split(sep)` for a single-character separator. -/
def pySplit (sep : Char) (l : Str) : List Str :=
  splitOnP (fun c => c == sep) l

/-- Python `s.split(sep, 1)`: the part before the first occurrence of the
separator, and (when the separator occurs) the part after it. -/
def splitOnce (sep : Char) : Str → Str × Option Str
  | [] => ([], none)
  | c :: rest =>
    if c == sep then ([], some rest)
    else
      let r := splitOnce sep rest
      (c :: r.1, r.2)

/-- Python `s.split()` (no argument): whitespace-separated words, empty
pieces dropped. -/
def pySplitWs (l : Str) : List Str :=
  (splitOnP Char.isWhitespace l).filter (fun w => !w.isEmpty)

/-- Value of a single hexadecimal digit, in either case, computed on the
code point (48-57 are the digits, 97-102 and 65-70 the lower and upper
case letters). -/
def hexDigit (c : Char) : Option Nat :=
  let n := c.toNat
  if 48 ≤ n ∧ n ≤ 57 then some (n - 48)
  else if 97 ≤ n ∧ n ≤ 102 then some (n - 87)
  else if 65 ≤ n ∧ n ≤ 70 then some (n - 55)
  else none

/-- Percent-escape decoding as performed by `urllib.parse.unquote`,
modelled byte-wise: a `%` followed by two hex digits becomes the encoded
character, anything else is copied verbatim. -/
def pctDecode : Str → Str
  | [] => []
  | c :: a :: b :: rest =>
    if c = '%' then
      match hexDigit a, hexDigit b with
      | some hi, some lo => Char.ofNat (16 * hi + lo) :: pctDecode rest
      | _, _ => '%' :: pctDecode (a :: b :: rest)
    else c :: pctDecode (a :: b :: rest)
  | c :: rest => c :: pctDecode rest

/-- Python `urllib.parse.unquote_plus`: `+` becomes a space, then percent
escapes are decoded. -/
def unquote_plus (s : Str) : Str :=
  pctDecode (s.map (fun c => if c == '+' then ' ' else c))

/-- Python `urllib.parse.parse_qsl` with default options: split the query
on `&`, drop empty pairs, drop pairs without `=` and pairs whose value is
empty (blank values are not kept), and decode names and values with
`unquote_plus`. -/
def parse_qsl (qs : Str) : List (Str × Str) :=
  (pySplit '&' qs).filterMap (fun nv =>
    if nv.isEmpty then none
    else
      match splitOnce '=' nv with
      | (_, none) => none
      | (n, some v) =>
        if v.isEmpty then none
        else some (unquote_plus n, unquote_plus v))

/-- Query component of a URL as computed by `urllib.parse.urlparse`: the
text after the first `?`, with everything from the first `#` on removed
first. -/
def urlQuery (url : Str) : Str :=
  ((splitOnce '?' (splitOnce '#' url).1).2).getD []

/-- Failure modes of `extract_video_id` (source lines 30-39): the explicit
`ValueError` of the final branch, and the `KeyError` raised by
`parse_qs(...)['v']` when the query has no usable `v` parameter. -/
inductive ExtractErr where
  | malformedReference
  | keyError
deriving DecidableEq, Repr

/-- Source lines 30-39, `YouTubeTranscriptionExtractor.extract_video_id`:
if the URL contains `youtu.be`, the identifier is the last `/`-segment with
any trailing `?`-component stripped; otherwise, if it contains
`youtube.com/watch`, the identifier is the first value of the `v` query
parameter (a missing parameter raises `KeyError`); otherwise `ValueError`
is raised. -/
def extract_video_id (url : Str) : Except ExtractErr Str :=
  if pyContains url ("youtu.be".toList) then
    .ok ((pySplit '?' ((pySplit '/' url).getLastD [])).headD [])
  else if pyContains url ("youtube.com/watch".toList) then
    match (parse_qsl (urlQuery url)).find? (fun p => p.1 == ['v']) with
    | some p => .ok p.2
    | none => .error .keyError
  else .error .malformedReference

/-- Characters of the regular-expression class replaced by
`sanitize_filename` (source line 86). -/
def reservedChar (c : Char) : Bool :=
  ['\\', '/', '*', '?', ':', '\"', '<', '>', '|'].contains c

/-- Source lines 83-88, `TranscriptFileManager.sanitize_filename`: replace
every reserved character by an underscore and truncate to 100
characters. -/
def sanitize_filename (text : Str) : Str :=
  (text.map (fun c => if reservedChar c then '_' else c)).take 100

/-- Source line 93: the video identifier filtered to alphanumeric
characters, hyphen and underscore (the `safe_id` local of
`generate_filename`). -/
def sanitizeVideoId (video_id : Str) : Str :=
  video_id.filter (fun c => c.isAlphanum || c == '-' || c == '_')

/-- Python truthiness of an optional string: `None` and the empty string
are falsy. -/
def pyTruthy (s : Option Str) : Bool :=
  match s with
  | none => false
  | some t => !t.isEmpty

/-- Source lines 90-106, `TranscriptFileManager.generate_filename`: when
both author and title are truthy the name is
`<safe_id>_<safe_author>_<safe_title>.md` where the title part keeps at
most its first five whitespace-separated words; otherwise the name is
`<safe_id>.md`. -/
def generate_filename (video_id : Str) (title author : Option Str) : Str :=
  let safe_id := sanitizeVideoId video_id
  if pyTruthy author && pyTruthy title then
    let safe_author := sanitize_filename (author.getD [])
    let short_title := List.intercalate [' '] ((pySplitWs (title.getD [])).take 5)
    let safe_title := sanitize_filename short_title
    safe_id ++ '_' :: safe_author ++ '_' :: safe_title ++ ".md".toList
  else
    safe_id ++ ".md".toList

/-- The persisted output directory: a listing of (filename, content)
pairs. -/
abbrev Dir := List (Str × Str)

/-- Source lines 108-119, `TranscriptFileManager.file_exists`: true when
some listed filename starts with `<video_id>_` or equals
`<video_id>.md`. -/
def file_exists (dir : Dir) (video_id : Str) : Bool :=
  dir.any (fun e => (video_id ++ ['_']).isPrefixOf e.1 || e.1 == video_id ++ ".md".toList)

/-- Video metadata as returned by `get_video_info` (both fields always
present, possibly the fallback values). -/
structure VideoInfo where
  title : Str
  author : Str
deriving DecidableEq, Repr

/-- External collaborators of the core, as oracles: the caption fetch
(`YouTubeTranscriptApi.get_transcript` composed with the text formatter,
any exception collapsed to `none`), the oEmbed metadata request (`none`
models a raised exception or timeout, `some (t, a)` a decoded JSON object
with optional `title` and `author_name` fields), and whether writing a
given filename raises an IO error. -/
structure Env where
  captionApi : Str → Option Str
  oembed : Str → Option (Option Str × Option Str)
  writeFails : Str → Bool

/-- Source lines 41-58, `YouTubeTranscriptionExtractor.get_video_info`: on
a successful oEmbed request the JSON fields are used with per-field
fallback defaults, on any exception both fallbacks are used.  The fallback
title is `YouTube Video <id>` and the fallback author is
`YouTube Creator`. -/
def get_video_info (env : Env) (video_id : Str) : VideoInfo :=
  match env.oembed video_id with
  | none => ⟨"YouTube Video ".toList ++ video_id, "YouTube Creator".toList⟩
  | some (t, a) =>
    ⟨t.getD ("YouTube Video ".toList ++ video_id), a.getD ("YouTube Creator".toList)⟩

/-- Source lines 60-69, `YouTubeTranscriptionExtractor.get_transcript`:
re-extract the identifier from the URL and query the caption API; any
exception (including a failed extraction) yields `None`. -/
def get_transcript (env : Env) (url : Str) : Option Str :=
  match extract_video_id url with
  | .error _ => none
  | .ok vid => env.captionApi vid

/-- Mutable state of one run: the run-scoped set of processed identifiers
(`TranscriptFileManager.processed_ids`), the output directory, and the
three counters of `main`. -/
structure St where
  processed : List Str
  dir : Dir
  success : Nat
  skipped : Nat
  duplicates : Nat
deriving DecidableEq, Repr

/-- Python `set.add` on the list-modelled identifier set. -/
def insertId (id : Str) (s : List Str) : List Str :=
  if id ∈ s then s else id :: s

/-- Writing a file: replace the content of an existing entry of the same
name (mode `w` truncates), otherwise append a new entry. -/
def writeFile (dir : Dir) (name content : Str) : Dir :=
  if dir.any (fun e => e.1 == name) then
    dir.map (fun e => if e.1 == name then (name, content) else e)
  else dir ++ [(name, content)]

/-- Source line 121-123, `TranscriptFileManager.is_duplicate`: membership
in the run-scoped set. -/
def is_duplicate (st : St) (video_id : Str) : Bool :=
  decide (video_id ∈ st.processed)

/-- Artifact document format produced by `save_transcript`
(source lines 134-138). -/
def mkContent (title author url transcript : Str) : Str :=
  "# ".toList ++ title ++ "\n".toList ++
  "Author: ".toList ++ author ++ "\n\n".toList ++
  "URL: ".toList ++ url ++ "\n\n".toList ++ transcript

/-- Write errors surfaced by `save_transcript` (the `open`/`write` call of
lines 141-142 raising). -/
inductive SaveErr where
  | persistenceFailure
deriving DecidableEq, Repr

/-- Source lines 125-144, `TranscriptFileManager.save_transcript`: the
identifier is added to the run-scoped set first (line 128), then the
filename is generated from identifier, title and author, and the formatted
content is written; a write failure raises after the set was already
updated.  Returns the written file name on success. -/
def save_transcript (env : Env) (st : St) (video_id url : Str) (info : VideoInfo)
    (transcript : Str) : St × Except SaveErr Str :=
  let st1 : St := { st with processed := insertId video_id st.processed }
  let filename := generate_filename video_id (some info.title) (some info.author)
  if env.writeFails filename then (st1, .error .persistenceFailure)
  else
    ({ st1 with dir := writeFile st1.dir filename (mkContent info.title info.author url transcript) },
     .ok filename)

/-- Command-line flags consumed by the per-reference policy. -/
structure Args where
  skipExisting : Bool
  overwrite : Bool
deriving DecidableEq, Repr

/-- Outcome of processing one reference in the loop of `main`. -/
inductive Outcome where
  | extractFailed
  | duplicate
  | skippedExisting
  | fetchFailed
  | saveFailed
  | saved (path : Str)
deriving DecidableEq, Repr

/-- Instrumentation of one loop iteration: whether the caption fetch
(line 209) and the metadata fetch (line 213) were invoked, whether the
already-exists warning (line 206) was printed, and the outcome. -/
structure Trace where
  capCalled : Bool
  metaCalled : Bool
  warned : Bool
  outcome : Outcome
deriving DecidableEq, Repr

/-- Source lines 208-219: fetch the transcript (this is the caption-fetch
invocation); when it is truthy, fetch the metadata, save, and count a
success; a save failure is caught by the per-reference handler without
touching the counters. -/
def fetchAndSave (env : Env) (st : St) (vid url : Str) (warned : Bool) : St × Trace :=
  match get_transcript env url with
  | none => (st, ⟨true, false, warned, .fetchFailed⟩)
  | some t =>
    if t.isEmpty then (st, ⟨true, false, warned, .fetchFailed⟩)
    else
      let info := get_video_info env vid
      match save_transcript env st vid url info t with
      | (st1, .error _) => (st1, ⟨true, true, warned, .saveFailed⟩)
      | (st1, .ok path) => ({ st1 with success := st1.success + 1 }, ⟨true, true, warned, .saved path⟩)

/-- Source lines 188-221, the per-reference body of the loop of `main`:
extraction failure is caught (error line only); a run-duplicate bumps the
duplicate counter and skips the fetches; an existing artifact with
`overwrite` unset either bumps the skip counter (when `skip-existing` is
set) or warns and proceeds; otherwise the reference is fetched and
saved. -/
def processUrl (env : Env) (args : Args) (st : St) (url : Str) : St × Trace :=
  match extract_video_id url with
  | .error _ => (st, ⟨false, false, false, .extractFailed⟩)
  | .ok vid =>
    if is_duplicate st vid then
      ({ st with duplicates := st.duplicates + 1 }, ⟨false, false, false, .duplicate⟩)
    else if file_exists st.dir vid && !args.overwrite then
      if args.skipExisting then
        ({ st with skipped := st.skipped + 1 }, ⟨false, false, false, .skippedExisting⟩)
      else fetchAndSave env st vid url true
    else fetchAndSave env st vid url false

/-- The loop of `main` over the whole reference list, returning the final
state and the per-reference traces in input order. -/
def runBatch (env : Env) (args : Args) : St → List Str → St × List Trace
  | st, [] => (st, [])
  | st, url :: rest =>
    let r := processUrl env args st url
    let rr := runBatch env args r.1 rest
    (rr.1, r.2 :: rr.2)

/-- Initial state of a run over an initially empty output directory. -/
def initSt : St := ⟨[], [], 0, 0, 0⟩

/-- Sample environment for concrete witnesses: captions exist for
identifiers `abc` and `xyz`, the oEmbed request always fails, writes
always succeed. -/
def testEnv : Env where
  captionApi := fun v =>
    if v == "abc".toList then some "hello world".toList
    else if v == "xyz".toList then some "other text".toList
    else none
  oembed := fun _ => none
  writeFails := fun _ => false

/-- Sample environment in which every write fails. -/
def testEnvWF : Env :=
  { testEnv with writeFails := fun _ => true }

/-- Identifier characters kept verbatim by the filename sanitizer (line
93): alphanumeric, hyphen or underscore.  Real YouTube identifiers consist
solely of such characters. -/
def goodChar (c : Char) : Bool :=
  c.isAlphanum || c == '-' || c == '_'

/-- Short-link URL shape for an identifier. -/
def shortUrl (x : Str) : Str :=
  "https://youtu.be/".toList ++ x

/-- Canonical watch URL shape for an identifier. -/
def watchUrl (x : Str) : Str :=
  "https://www.youtube.com/watch?v=".toList ++ x

/-- Modelled from the spec words of section 4.3, for comparison with the
implemented detector: some persisted artifact name begins with
`<identifier>_` or equals `<identifier>` exactly. -/
def specExistsArtifact (dir : Dir) (video_id : Str) : Prop :=
  ∃ e ∈ dir, (video_id ++ ['_']) <+: e.1 ∨ e.1 = video_id

/-! Helper lemmas about the string primitives. -/

theorem splitOnP_ne_nil (p : Char → Bool) (l : Str) : splitOnP p l ≠ [] := by
  induction l with
  | nil => simp [splitOnP]
  | cons c rest ih =>
    by_cases hc : p c
    · simp [splitOnP, hc]
    · simp only [splitOnP, hc]
      cases h : splitOnP p rest with
      | nil => exact absurd h ih
      | cons a t => simp

theorem splitOnP_eq_single (p : Char → Bool) (l : Str) (h : ∀ c ∈ l, p c = false) :
    splitOnP p l = [l] := by
  induction l with
  | nil => rfl
  | cons c rest ih =>
    have hc : p c = false := h c (by simp)
    have ht : splitOnP p rest = [rest] := ih (fun d hd => h d (by simp [hd]))
    simp [splitOnP, hc, ht]

theorem splitOnP_cons_pos (p : Char → Bool) (c : Char) (l : Str) (hc : p c = true) :
    splitOnP p (c :: l) = [] :: splitOnP p l := by
  simp [splitOnP, hc]

theorem splitOnP_cons_neg (p : Char → Bool) (c : Char) (l : Str) (hc : p c = false) :
    splitOnP p (c :: l) = (splitOnP p l).modifyHead (fun w => c :: w) := by
  simp [splitOnP, hc]

theorem one_le_length_splitOnP (p : Char → Bool) (l : Str) :
    1 ≤ (splitOnP p l).length := by
  have h := splitOnP_ne_nil p l
  cases hh : splitOnP p l with
  | nil => exact absurd hh h
  | cons x t => simp

theorem length_splitOnP_sep (p : Char → Bool) (a b : Str) (s : Char) (hs : p s = true) :
    2 ≤ (splitOnP p (a ++ s :: b)).length := by
  induction a with
  | nil =>
    rw [List.nil_append, splitOnP_cons_pos p s b hs, List.length_cons]
    have := one_le_length_splitOnP p b
    omega
  | cons c a ih =>
    by_cases hc : p c
    · rw [List.cons_append, splitOnP_cons_pos p c _ hc, List.length_cons]
      omega
    · rw [List.cons_append, splitOnP_cons_neg p c _ (Bool.eq_false_iff.mpr hc),
        List.length_modifyHead]
      exact ih

theorem getLastD_modifyHead (l : List Str) (f : Str → Str) (h : 2 ≤ l.length) :
    (l.modifyHead f).getLastD [] = l.getLastD [] := by
  match l with
  | [] => simp at h
  | [x] => simp at h
  | x :: y :: t => simp [List.modifyHead, List.getLastD_cons]

theorem getLastD_cons_ne_nil (x : Str) (l : List Str) (h : l ≠ []) :
    (x :: l).getLastD [] = l.getLastD [] := by
  cases l with
  | nil => exact absurd rfl h
  | cons y t => simp [List.getLastD_cons]

theorem getLastD_splitOnP_sep (p : Char → Bool) (a b : Str) (s : Char) (hs : p s = true) :
    (splitOnP p (a ++ s :: b)).getLastD [] = (splitOnP p b).getLastD [] := by
  induction a with
  | nil =>
    rw [List.nil_append, splitOnP_cons_pos p s b hs,
      getLastD_cons_ne_nil _ _ (splitOnP_ne_nil p b)]
  | cons c a ih =>
    by_cases hc : p c
    · rw [List.cons_append, splitOnP_cons_pos p c _ hc,
        getLastD_cons_ne_nil _ _ (splitOnP_ne_nil p _)]
      exact ih
    · rw [List.cons_append, splitOnP_cons_neg p c _ (Bool.eq_false_iff.mpr hc),
        getLastD_modifyHead _ _ (length_splitOnP_sep p a b s hs)]
      exact ih

theorem headD_splitOnP_sep (p : Char → Bool) (a b : Str) (s : Char)
    (ha : ∀ c ∈ a, p c = false) (hs : p s = true) :
    (splitOnP p (a ++ s :: b)).headD [] = a := by
  induction a with
  | nil => rw [List.nil_append, splitOnP_cons_pos p s b hs, List.headD_cons]
  | cons c a ih =>
    have hc : p c = false := ha c (by simp)
    have ih2 := ih (fun d hd => ha d (by simp [hd]))
    rw [List.cons_append, splitOnP_cons_neg p c _ hc]
    cases h : splitOnP p (a ++ s :: b) with
    | nil => exact absurd h (splitOnP_ne_nil p _)
    | cons x t =>
      rw [h] at ih2
      simp only [List.headD_cons] at ih2
      simp [List.modifyHead, ih2]

theorem splitOnce_eq_none (s : Char) (l : Str) (h : s ∉ l) : splitOnce s l = (l, none) := by
  induction l with
  | nil => rfl
  | cons c rest ih =>
    have hc : ¬(c == s) = true := by
      simp only [beq_iff_eq]
      rintro rfl
      exact h (by simp)
    have ht := ih (fun hm => h (by simp [hm]))
    simp [splitOnce, hc, ht]

theorem splitOnce_sep (s : Char) (a b : Str) (h : s ∉ a) :
    splitOnce s (a ++ s :: b) = (a, some b) := by
  induction a with
  | nil => simp [splitOnce]
  | cons c a ih =>
    have hc : ¬(c == s) = true := by
      simp only [beq_iff_eq]
      rintro rfl
      exact h (by simp)
    have ht := ih (fun hm => h (by simp [hm]))
    simp [splitOnce, hc, ht]

theorem pyContains_iff_substring (l pat : Str) : pyContains l pat = true ↔ pat <:+: l := by
  induction l with
  | nil => simp [pyContains, List.isEmpty_iff]
  | cons c rest ih =>
    rw [pyContains, Bool.or_eq_true, List.isPrefixOf_iff_prefix, ih, List.infix_cons_iff]

theorem pyContains_append_left (a b pat : Str) (h : pyContains a pat = true) :
    pyContains (a ++ b) pat = true := by
  rw [pyContains_iff_substring] at h ⊢
  exact h.trans (List.prefix_append a b).isInfix

theorem prefix_append_cases {l a b : Str} (h : l <+: a ++ b) :
    l <+: a ∨ (a <+: l ∧ l.drop a.length <+: b) := by
  induction a generalizing l with
  | nil => exact Or.inr ⟨List.nil_prefix, by simpa using h⟩
  | cons x a ih =>
    cases l with
    | nil => exact Or.inl (List.nil_prefix)
    | cons y l =>
      rw [List.cons_append, List.cons_prefix_cons] at h
      obtain ⟨rfl, h2⟩ := h
      rcases ih h2 with h3 | ⟨h3, h4⟩
      · exact Or.inl (List.cons_prefix_cons.mpr ⟨rfl, h3⟩)
      · exact Or.inr ⟨List.cons_prefix_cons.mpr ⟨rfl, h3⟩, by simpa using h4⟩

theorem suffix_append_cases {t a b : Str} (h : t <:+ a ++ b) :
    t <:+ b ∨ ∃ t1, t = t1 ++ b ∧ t1 <:+ a := by
  induction a generalizing t with
  | nil => exact Or.inl (by simpa using h)
  | cons x a ih =>
    obtain ⟨s, hs⟩ := h
    cases s with
    | nil => exact Or.inr ⟨x :: a, by simpa using hs, List.suffix_refl _⟩
    | cons y s =>
      rw [List.cons_append, List.cons_append] at hs
      have h2 : t <:+ a ++ b := ⟨s, by injection hs⟩
      rcases ih h2 with h3 | ⟨t1, rfl, h4⟩
      · exact Or.inl h3
      · exact Or.inr ⟨t1, rfl, h4.trans (List.suffix_cons x a)⟩

theorem not_mem_of_goodChar (x : Str) (hx : ∀ c ∈ x, goodChar c = true) (d : Char)
    (hd : goodChar d = false) : d ∉ x := by
  intro hm
  have := hx d hm
  rw [hd] at this
  exact Bool.noConfusion this

theorem beq_false_of_not_mem (x : Str) (d : Char) (h : d ∉ x) :
    ∀ c ∈ x, (c == d) = false := by
  intro c hc
  rw [beq_eq_false_iff_ne]
  rintro rfl
  exact h hc

theorem pctDecode_cons_ne (c : Char) (l : Str) (hc : c ≠ '%') :
    pctDecode (c :: l) = c :: pctDecode l := by
  match l with
  | [] => rfl
  | [a] => rfl
  | a :: b :: r => simp [pctDecode, hc]

theorem pctDecode_eq_self (l : Str) (h : '%' ∉ l) : pctDecode l = l := by
  induction l with
  | nil => rfl
  | cons c rest ih =>
    have hc : c ≠ '%' := by rintro rfl; exact h (by simp)
    rw [pctDecode_cons_ne c rest hc, ih (fun hm => h (by simp [hm]))]

theorem map_plus_eq_self (l : Str) (hp : '+' ∉ l) :
    l.map (fun c => if c == '+' then ' ' else c) = l := by
  induction l with
  | nil => rfl
  | cons c rest ih =>
    have hc : (c == '+') = false := by
      rw [beq_eq_false_iff_ne]
      rintro rfl
      exact hp (by simp)
    simp only [List.map_cons, hc, Bool.false_eq_true, if_false,
      ih (fun hm => hp (by simp [hm]))]

theorem unquote_plus_eq_self (l : Str) (hp : '+' ∉ l) (hpc : '%' ∉ l) :
    unquote_plus l = l := by
  rw [unquote_plus, map_plus_eq_self l hp, pctDecode_eq_self l hpc]

theorem not_pyContains_youtube_watch (x : Str) (hx : ∀ c ∈ x, goodChar c = true) :
    pyContains (watchUrl x) ("youtu.be".toList) = false := by
  rw [Bool.eq_false_iff]
  intro hcon
  rw [pyContains_iff_substring, watchUrl, List.infix_iff_prefix_suffix] at hcon
  obtain ⟨t, hpt, hst⟩ := hcon
  have hdotx : ('.' : Char) ∉ x :=
    not_mem_of_goodChar x hx '.' (by decide)
  rcases suffix_append_cases hst with hsx | ⟨t1, rfl, ht1⟩
  · have hdot : ('.' : Char) ∈ "youtu.be".toList := by decide
    exact hdotx (hsx.subset (hpt.subset hdot))
  · rcases prefix_append_cases hpt with hp1 | ⟨hp2, hp3⟩
    · have : ("youtu.be".toList) <:+: ("https://www.youtube.com/watch?v=".toList) :=
        List.infix_iff_prefix_suffix.mpr ⟨t1, hp1, ht1⟩
      exact absurd this (by decide)
    · have ht1eq : t1 = ("youtu.be".toList).take t1.length := by
        rw [List.prefix_iff_eq_take] at hp2
        exact hp2
      have hplen : ("youtu.be".toList).length = 8 := by decide
      rcases Nat.lt_or_ge t1.length 8 with hlt | hge
      · have key : ∀ k, k < 8 → (('.' : Char) ∈ ("youtu.be".toList).drop k ∨
            ¬(("youtu.be".toList).take k <:+ ("https://www.youtube.com/watch?v=".toList))) := by
          decide
        rcases key t1.length hlt with hdot | hns
        · exact hdotx (hp3.subset hdot)
        · rw [ht1eq] at ht1
          exact hns ht1
      · have h8 : t1.length = 8 := by
          have := hp2.length_le
          omega
        have ht1pat : t1 = "youtu.be".toList := by
          rw [ht1eq, h8]
          decide
        rw [ht1pat] at ht1
        exact absurd ht1 (by decide)

theorem getLastD_single (x : Str) : ([x] : List Str).getLastD [] = x := rfl

theorem headD_single (x : Str) : ([x] : List Str).headD [] = x := rfl

theorem extract_short (x : Str) (hx : ∀ c ∈ x, goodChar c = true) :
    extract_video_id (shortUrl x) = .ok x := by
  have hcont : pyContains (shortUrl x) ("youtu.be".toList) = true := by
    rw [shortUrl]
    exact pyContains_append_left _ _ _ (by decide)
  have hslash : ('/' : Char) ∉ x := not_mem_of_goodChar x hx '/' (by decide)
  have hqm : ('?' : Char) ∉ x := not_mem_of_goodChar x hx '?' (by decide)
  have hre : shortUrl x = "https://youtu.be".toList ++ '/' :: x := rfl
  have hlast : (pySplit '/' (shortUrl x)).getLastD [] = x := by
    rw [hre, pySplit, getLastD_splitOnP_sep _ _ _ '/' (by decide),
      splitOnP_eq_single _ _ (beq_false_of_not_mem x '/' hslash), getLastD_single]
  have hhead : (pySplit '?' x).headD [] = x := by
    rw [pySplit, splitOnP_eq_single _ _ (beq_false_of_not_mem x '?' hqm), headD_single]
  unfold extract_video_id
  rw [if_pos hcont, hlast, hhead]

theorem extract_short_query (x q : Str) (hx : ∀ c ∈ x, goodChar c = true)
    (hq : ('/' : Char) ∉ q) :
    extract_video_id (shortUrl x ++ '?' :: q) = .ok x := by
  have hslash : ('/' : Char) ∉ x := not_mem_of_goodChar x hx '/' (by decide)
  have hqm : ('?' : Char) ∉ x := not_mem_of_goodChar x hx '?' (by decide)
  have hcont : pyContains (shortUrl x ++ '?' :: q) ("youtu.be".toList) = true := by
    rw [shortUrl, List.append_assoc]
    exact pyContains_append_left _ _ _ (by decide)
  have h2 : ('/' : Char) ∉ x ++ '?' :: q := by
    intro hm
    rcases List.mem_append.mp hm with h | h
    · exact hslash h
    · rcases List.mem_cons.mp h with h3 | h3
      · exact absurd h3 (by decide)
      · exact hq h3
  have hre : shortUrl x ++ '?' :: q = "https://youtu.be".toList ++ '/' :: (x ++ '?' :: q) := by
    rw [shortUrl, List.append_assoc]
    rfl
  have hlast : (pySplit '/' (shortUrl x ++ '?' :: q)).getLastD [] = x ++ '?' :: q := by
    rw [hre, pySplit, getLastD_splitOnP_sep _ _ _ '/' (by decide),
      splitOnP_eq_single _ _ (beq_false_of_not_mem _ '/' h2), getLastD_single]
  have hhead : (pySplit '?' (x ++ '?' :: q)).headD [] = x := by
    rw [pySplit]
    exact headD_splitOnP_sep _ x q '?' (beq_false_of_not_mem x '?' hqm) (by decide)
  unfold extract_video_id
  rw [if_pos hcont, hlast, hhead]

theorem extract_watch (x : Str) (hx : ∀ c ∈ x, goodChar c = true) (hne : x ≠ []) :
    extract_video_id (watchUrl x) = .ok x := by
  have h1 := not_pyContains_youtube_watch x hx
  have h2 : pyContains (watchUrl x) ("youtube.com/watch".toList) = true := by
    rw [watchUrl]
    exact pyContains_append_left _ _ _ (by decide)
  have hhash : ('#' : Char) ∉ watchUrl x := by
    rw [watchUrl]
    intro hm
    rcases List.mem_append.mp hm with h | h
    · exact absurd h (by decide)
    · exact not_mem_of_goodChar x hx '#' (by decide) h
  have hquery : urlQuery (watchUrl x) = 'v' :: '=' :: x := by
    rw [urlQuery, splitOnce_eq_none '#' _ hhash]
    have hre : watchUrl x = "https://www.youtube.com/watch".toList ++ '?' :: ('v' :: '=' :: x) := rfl
    rw [hre, splitOnce_sep '?' _ _ (by decide)]
    rfl
  have hamp : ∀ c ∈ 'v' :: '=' :: x, (c == '&') = false := by
    intro c hc
    rcases List.mem_cons.mp hc with rfl | hc2
    · decide
    · rcases List.mem_cons.mp hc2 with rfl | hc3
      · decide
      · exact beq_false_of_not_mem x '&' (not_mem_of_goodChar x hx '&' (by decide)) c hc3
  have hsp : splitOnce '=' ('v' :: '=' :: x) = (['v'], some x) :=
    splitOnce_sep '=' ['v'] x (by decide)
  have hxe : x.isEmpty = false := by
    rw [Bool.eq_false_iff]
    intro h
    exact hne (List.isEmpty_iff.mp h)
  have huqx : unquote_plus x = x :=
    unquote_plus_eq_self x (not_mem_of_goodChar x hx '+' (by decide))
      (not_mem_of_goodChar x hx '%' (by decide))
  have hqsl : parse_qsl ('v' :: '=' :: x) = [(['v'], x)] := by
    rw [parse_qsl, pySplit, splitOnP_eq_single _ _ hamp]
    simp only [List.filterMap_cons, List.filterMap_nil, List.isEmpty_cons, hsp, hxe,
      Bool.false_eq_true, if_false, huqx]
    rfl
  have hfind : ([(['v'], x)] : List (Str × Str)).find? (fun p => p.1 == ['v']) = some (['v'], x) := by
    simp [List.find?]
  unfold extract_video_id
  rw [if_neg (by rw [h1]; exact Bool.false_ne_true), if_pos h2, hquery, hqsl, hfind]

/-- C7 amended: for every video identifier made of alphanumeric, hyphen or
underscore characters, the accepted URL shapes referring to it — the
short-link shape (bare, or with a trailing query component free of `/`,
which is stripped) and the canonical-watch shape via the `v` query
parameter — yield the identical identifier from `extract_video_id`.  A
trailing query containing `/` must be excluded: see the counterexample,
where the code returns the last query segment instead.  Extraction is
embedded as a pure function of the reference string, so it is
deterministic by construction. -/
theorem c7_url_shapes_agree (x q : Str) (hx : x.all goodChar = true) (hne : x ≠ [])
    (hq : ('/' : Char) ∉ q) :
    extract_video_id (shortUrl x) = .ok x ∧
    extract_video_id (shortUrl x ++ '?' :: q) = .ok x ∧
    extract_video_id (watchUrl x) = .ok x := by
  have hx2 : ∀ c ∈ x, goodChar c = true := List.all_eq_true.mp hx
  exact ⟨extract_short x hx2, extract_short_query x q hx2 hq, extract_watch x hx2 hne⟩

/-- Witness for C7 at the identifier `dQw4w9WgXcQ` and trailing query
`si=42`. -/
theorem c7_witness :
    ("dQw4w9WgXcQ".toList.all goodChar = true) ∧
    ("dQw4w9WgXcQ".toList ≠ ([] : Str)) ∧
    (('/' : Char) ∉ "si=42".toList) ∧
    (extract_video_id (shortUrl "dQw4w9WgXcQ".toList) = .ok "dQw4w9WgXcQ".toList ∧
     extract_video_id (shortUrl "dQw4w9WgXcQ".toList ++ '?' :: "si=42".toList) =
       .ok "dQw4w9WgXcQ".toList ∧
     extract_video_id (watchUrl "dQw4w9WgXcQ".toList) = .ok "dQw4w9WgXcQ".toList) :=
  ⟨by decide, by decide, by decide,
   c7_url_shapes_agree _ _ (by decide) (by decide) (by decide)⟩

theorem reservedChar_eq_false_of_good (c : Char)
    (h : (c.isAlphanum || c == '-' || c == '_') = true) : reservedChar c = false := by
  cases hr : reservedChar c with
  | false => rfl
  | true =>
    exfalso
    simp only [reservedChar, List.contains_eq_any_beq, List.any_eq_true, List.mem_cons,
      List.not_mem_nil, beq_iff_eq] at hr
    obtain ⟨d, hd, rfl⟩ := hr
    rcases hd with rfl | rfl | rfl | rfl | rfl | rfl | rfl | rfl | rfl | hfalse
    · exact absurd h (by decide)
    · exact absurd h (by decide)
    · exact absurd h (by decide)
    · exact absurd h (by decide)
    · exact absurd h (by decide)
    · exact absurd h (by decide)
    · exact absurd h (by decide)
    · exact absurd h (by decide)
    · exact absurd h (by decide)
    · simp at hfalse

theorem reserved_false_of_mem_sanitize (t : Str) (c : Char) (hc : c ∈ sanitize_filename t) :
    reservedChar c = false := by
  rw [sanitize_filename] at hc
  have hc2 := List.mem_of_mem_take hc
  rw [List.mem_map] at hc2
  obtain ⟨d, _, hd⟩ := hc2
  by_cases hr : reservedChar d = true
  · rw [if_pos hr] at hd
    rw [← hd]
    decide
  · rw [if_neg hr] at hd
    rw [← hd]
    exact Bool.eq_false_iff.mpr hr

theorem reserved_false_of_mem_sanitizeVideoId (v : Str) (c : Char)
    (hc : c ∈ sanitizeVideoId v) : reservedChar c = false := by
  rw [sanitizeVideoId, List.mem_filter] at hc
  exact reservedChar_eq_false_of_good c hc.2

/-- C5: for every identifier and every (possibly absent) title and author,
the output of `generate_filename` begins with the identifier sanitized to
alphanumeric characters plus hyphen and underscore, and contains no
character of the reserved set of `sanitize_filename`. -/
theorem c5_filename_sanitized (video_id : Str) (title author : Option Str) :
    sanitizeVideoId video_id <+: generate_filename video_id title author ∧
    ∀ c ∈ generate_filename video_id title author, reservedChar c = false := by
  have hmd : ∀ c ∈ (".md".toList : Str), reservedChar c = false := by decide
  simp only [generate_filename]
  by_cases hcond : (pyTruthy author && pyTruthy title) = true
  · rw [if_pos hcond]
    refine ⟨((List.prefix_append _ _).trans (List.prefix_append _ _)).trans
      (List.prefix_append _ _), ?_⟩
    intro c hc
    simp only [List.mem_append, List.mem_cons] at hc
    rcases hc with ((h1 | rfl | h1) | rfl | h1) | h1
    · exact reserved_false_of_mem_sanitizeVideoId _ c h1
    · decide
    · exact reserved_false_of_mem_sanitize _ c h1
    · decide
    · exact reserved_false_of_mem_sanitize _ c h1
    · exact hmd c h1
  · rw [if_neg hcond]
    refine ⟨List.prefix_append _ _, ?_⟩
    intro c hc
    rcases List.mem_append.mp hc with h1 | h1
    · exact reserved_false_of_mem_sanitizeVideoId _ c h1
    · exact hmd c h1

theorem writeFile_any (dir : Dir) (name content : Str) (P : Str → Bool) (h : P name = true) :
    (writeFile dir name content).any (fun e => P e.1) = true := by
  rw [writeFile]
  by_cases hmem : dir.any (fun e => e.1 == name) = true
  · rw [if_pos hmem, List.any_map]
    rw [List.any_eq_true] at hmem ⊢
    obtain ⟨e, he, hbeq⟩ := hmem
    refine ⟨e, he, ?_⟩
    simp only [Function.comp_apply]
    rw [if_pos hbeq]
    exact h
  · rw [if_neg hmem, List.any_append]
    have : ([(name, content)] : Dir).any (fun e => P e.1) = true := by
      simp [h]
    rw [this, Bool.or_true]

theorem filename_matches_id (video_id : Str) (title author : Option Str)
    (hsan : sanitizeVideoId video_id = video_id) :
    ((video_id ++ ['_']).isPrefixOf (generate_filename video_id title author)
      || generate_filename video_id title author == video_id ++ ".md".toList) = true := by
  simp only [generate_filename]
  by_cases hcond : (pyTruthy author && pyTruthy title) = true
  · rw [if_pos hcond, hsan, Bool.or_eq_true]
    left
    rw [List.isPrefixOf_iff_prefix]
    have h1 : (video_id ++ ['_']) <+: video_id ++ '_' :: sanitize_filename (author.getD []) := by
      rw [List.append_cons video_id '_' (sanitize_filename (author.getD []))]
      exact List.prefix_append _ _
    exact (h1.trans (List.prefix_append _ _)).trans (List.prefix_append _ _)
  · rw [if_neg hcond, hsan, Bool.or_eq_true]
    right
    exact beq_self_eq_true _

/-- C2 counterexample: the claim fails for an identifier containing a
character outside the alphanumeric/hyphen/underscore set.  Saving an
artifact for the identifier `.` succeeds and persists the file `.md`, yet
`file_exists` afterwards reports false for `.`, because the saved filename
starts with the sanitized identifier (empty here), not with the identifier
itself. -/
theorem c2_counterexample :
    (save_transcript testEnv initSt ['.'] [] ⟨[], []⟩ ['t']).2 = .ok (".md".toList) ∧
    file_exists (save_transcript testEnv initSt ['.'] [] ⟨[], []⟩ ['t']).1.dir ['.'] = false :=
  ⟨by rfl, by rfl⟩

/-- C2 amended: for every identifier consisting solely of alphanumeric,
hyphen or underscore characters (so that the filename sanitizer keeps it
verbatim) and every title/author pair (absent values are modelled by the
empty string, which is falsy), after `save_transcript` succeeds in writing
the artifact, `file_exists` returns true for that identifier. -/
theorem c2_roundtrip_sanitized_id (env : Env) (st : St) (video_id url : Str)
    (info : VideoInfo) (transcript : Str)
    (hid : video_id.all goodChar = true)
    (hw : env.writeFails (generate_filename video_id (some info.title) (some info.author)) = false) :
    file_exists ((save_transcript env st video_id url info transcript).1).dir video_id = true := by
  have hsan : sanitizeVideoId video_id = video_id := by
    rw [sanitizeVideoId, List.filter_eq_self]
    exact List.all_eq_true.mp hid
  simp only [save_transcript, hw, Bool.false_eq_true, if_false]
  rw [file_exists]
  exact writeFile_any _ _ _
    (fun n => (video_id ++ ['_']).isPrefixOf n || n == video_id ++ ".md".toList)
    (filename_matches_id video_id _ _ hsan)

/-- Witness for C2 amended: the round trip at identifier `abc` with a
title/author pair present. -/
theorem c2_roundtrip_witness :
    file_exists ((save_transcript testEnv initSt "abc".toList "u".toList
      ⟨"T i t l e".toList, "Auth".toList⟩ "body".toList).1).dir "abc".toList = true :=
  c2_roundtrip_sanitized_id testEnv initSt "abc".toList "u".toList
    ⟨"T i t l e".toList, "Auth".toList⟩ "body".toList (by decide) (by decide)

/-- C6 counterexample: for a directory holding a file named exactly `abc`
(no extension), the spec predicate (name equals the identifier exactly)
holds, but `file_exists` returns false: the implementation compares against
`abc.md`, not against `abc`. -/
theorem c6_counterexample :
    specExistsArtifact [("abc".toList, [])] ("abc".toList) ∧
    file_exists [("abc".toList, [])] ("abc".toList) = false :=
  ⟨⟨("abc".toList, []), by simp, Or.inr rfl⟩, by rfl⟩

/-- C6 amended: `file_exists` returns true exactly when some persisted
name begins with `<identifier>_` or equals `<identifier>.md` (the name the
synthesizer produces when title or author is absent), for every identifier
and every state of the storage. -/
theorem c6_exists_iff (dir : Dir) (video_id : Str) :
    file_exists dir video_id = true ↔
    ∃ e ∈ dir, (video_id ++ ['_']) <+: e.1 ∨ e.1 = video_id ++ ".md".toList := by
  rw [file_exists, List.any_eq_true]
  simp only [Bool.or_eq_true, List.isPrefixOf_iff_prefix, beq_iff_eq]

/-! Helper lemmas about the orchestrator. -/

theorem is_duplicate_eq_false (st : St) (x : Str) (h : x ∉ st.processed) :
    is_duplicate st x = false := by
  simp [is_duplicate, h]

theorem is_duplicate_eq_true (st : St) (x : Str) (h : x ∈ st.processed) :
    is_duplicate st x = true := by
  simp [is_duplicate, h]

theorem mem_insertId (vid x : Str) (s : List Str) (h : x ∈ s) : x ∈ insertId vid s := by
  rw [insertId]
  by_cases hm : vid ∈ s
  · rw [if_pos hm]
    exact h
  · rw [if_neg hm]
    exact List.mem_cons_of_mem _ h

theorem self_mem_insertId (vid : Str) (s : List Str) : vid ∈ insertId vid s := by
  rw [insertId]
  by_cases hm : vid ∈ s
  · rw [if_pos hm]
    exact hm
  · rw [if_neg hm]
    exact List.mem_cons_self _ _

theorem save_transcript_processed (env : Env) (st : St) (vid url : Str) (info : VideoInfo)
    (t : Str) :
    ((save_transcript env st vid url info t).1).processed = insertId vid st.processed := by
  rw [save_transcript]
  by_cases hw : env.writeFails (generate_filename vid (some info.title) (some info.author)) = true
  · rw [if_pos hw]
  · rw [if_neg hw]

theorem processUrl_duplicate (env : Env) (args : Args) (st : St) (u x : Str)
    (hx : extract_video_id u = .ok x) (hmem : x ∈ st.processed) :
    processUrl env args st u =
      ({ st with duplicates := st.duplicates + 1 }, ⟨false, false, false, .duplicate⟩) := by
  simp only [processUrl, hx]
  rw [is_duplicate_eq_true st x hmem, if_pos rfl]

theorem processUrl_gate (env : Env) (args : Args) (st : St) (u x : Str)
    (hx : extract_video_id u = .ok x)
    (hnm : x ∉ st.processed)
    (hgate : (file_exists st.dir x && !args.overwrite && args.skipExisting) = false) :
    processUrl env args st u =
      fetchAndSave env st x u (file_exists st.dir x && !args.overwrite) := by
  simp only [processUrl, hx]
  rw [is_duplicate_eq_false st x hnm, if_neg Bool.false_ne_true]
  by_cases he : (file_exists st.dir x && !args.overwrite) = true
  · rw [if_pos he, he]
    have hskip : args.skipExisting = false := by
      rw [he] at hgate
      simpa using hgate
    rw [hskip, if_neg Bool.false_ne_true]
  · have he2 : (file_exists st.dir x && !args.overwrite) = false := Bool.eq_false_iff.mpr he
    rw [if_neg he, he2]

theorem processUrl_skip (env : Env) (args : Args) (st : St) (u x : Str)
    (hx : extract_video_id u = .ok x)
    (hnm : x ∉ st.processed)
    (hex : file_exists st.dir x = true)
    (hov : args.overwrite = false)
    (hskip : args.skipExisting = true) :
    processUrl env args st u =
      ({ st with skipped := st.skipped + 1 }, ⟨false, false, false, .skippedExisting⟩) := by
  simp only [processUrl, hx]
  rw [is_duplicate_eq_false st x hnm, if_neg Bool.false_ne_true, hex, hov,
    if_pos (show ((true && !false) = true) by decide), hskip, if_pos rfl]

theorem fetchAndSave_fetchFailed (env : Env) (st : St) (x u : Str) (warned : Bool)
    (hx : extract_video_id u = .ok x) (hcap : env.captionApi x = none) :
    fetchAndSave env st x u warned = (st, ⟨true, false, warned, .fetchFailed⟩) := by
  simp only [fetchAndSave, get_transcript, hx, hcap]

theorem fetchAndSave_saved (env : Env) (st : St) (x u : Str) (warned : Bool) (t : Str)
    (hx : extract_video_id u = .ok x)
    (hcap : env.captionApi x = some t) (ht : t.isEmpty = false)
    (hw : env.writeFails (generate_filename x (some (get_video_info env x).title)
      (some (get_video_info env x).author)) = false) :
    fetchAndSave env st x u warned =
      ({ st with
          processed := insertId x st.processed,
          dir := writeFile st.dir
            (generate_filename x (some (get_video_info env x).title)
              (some (get_video_info env x).author))
            (mkContent (get_video_info env x).title (get_video_info env x).author u t),
          success := st.success + 1 },
       ⟨true, true, warned,
        .saved (generate_filename x (some (get_video_info env x).title)
          (some (get_video_info env x).author))⟩) := by
  simp only [fetchAndSave, get_transcript, hx, hcap, ht, Bool.false_eq_true, if_false,
    save_transcript, hw]

theorem fetchAndSave_saveFailed (env : Env) (st : St) (x u : Str) (warned : Bool) (t : Str)
    (hx : extract_video_id u = .ok x)
    (hcap : env.captionApi x = some t) (ht : t.isEmpty = false)
    (hw : env.writeFails (generate_filename x (some (get_video_info env x).title)
      (some (get_video_info env x).author)) = true) :
    fetchAndSave env st x u warned =
      ({ st with processed := insertId x st.processed },
       ⟨true, true, warned, .saveFailed⟩) := by
  simp only [fetchAndSave, get_transcript, hx, hcap, ht, Bool.false_eq_true, if_false,
    save_transcript]
  rw [if_pos hw]

theorem fetchAndSave_processed_mem (env : Env) (st : St) (vid u : Str) (warned : Bool)
    (x : Str) (h : x ∈ st.processed) :
    x ∈ (fetchAndSave env st vid u warned).1.processed := by
  cases hgt : get_transcript env u with
  | none =>
    simp only [fetchAndSave, hgt]
    exact h
  | some t =>
    simp only [fetchAndSave, hgt]
    by_cases hte : t.isEmpty = true
    · rw [if_pos hte]
      exact h
    · rw [if_neg hte]
      rcases hsv : save_transcript env st vid u (get_video_info env vid) t with ⟨st1, res⟩
      have hp : st1.processed = insertId vid st.processed := by
        have h2 := save_transcript_processed env st vid u (get_video_info env vid) t
        rw [hsv] at h2
        exact h2
      cases res with
      | error e =>
        show x ∈ st1.processed
        rw [hp]
        exact mem_insertId vid x _ h
      | ok path =>
        show x ∈ st1.processed
        rw [hp]
        exact mem_insertId vid x _ h

theorem processUrl_processed_mem (env : Env) (args : Args) (st : St) (u x : Str)
    (h : x ∈ st.processed) : x ∈ (processUrl env args st u).1.processed := by
  cases hx : extract_video_id u with
  | error e =>
    simp only [processUrl, hx]
    exact h
  | ok vid =>
    simp only [processUrl, hx]
    by_cases hd : is_duplicate st vid = true
    · rw [if_pos hd]
      exact h
    · rw [if_neg hd]
      by_cases he : (file_exists st.dir vid && !args.overwrite) = true
      · rw [if_pos he]
        by_cases hs : args.skipExisting = true
        · rw [if_pos hs]
          exact h
        · rw [if_neg hs]
          exact fetchAndSave_processed_mem env st vid u true x h
      · rw [if_neg he]
        exact fetchAndSave_processed_mem env st vid u false x h

theorem runBatch_processed_mem (env : Env) (args : Args) (l : List Str) (st : St) (x : Str)
    (h : x ∈ st.processed) : x ∈ (runBatch env args st l).1.processed := by
  induction l generalizing st with
  | nil => exact h
  | cons u us ih =>
    simp only [runBatch]
    exact ih _ (processUrl_processed_mem env args st u x h)

theorem fetchAndSave_saved_mem (env : Env) (st : St) (vid u : Str) (warned : Bool) (p : Str)
    (h : (fetchAndSave env st vid u warned).2.outcome = .saved p) :
    vid ∈ (fetchAndSave env st vid u warned).1.processed := by
  cases hgt : get_transcript env u with
  | none =>
    simp only [fetchAndSave, hgt] at h
    exact absurd h (by simp)
  | some t =>
    simp only [fetchAndSave, hgt] at h ⊢
    by_cases hte : t.isEmpty = true
    · rw [if_pos hte] at h
      exact absurd h (by simp)
    · rw [if_neg hte] at h ⊢
      rcases hsv : save_transcript env st vid u (get_video_info env vid) t with ⟨st1, res⟩
      have hp : st1.processed = insertId vid st.processed := by
        have h2 := save_transcript_processed env st vid u (get_video_info env vid) t
        rw [hsv] at h2
        exact h2
      rw [hsv] at h
      cases res with
      | error e =>
        exact absurd (show Outcome.saveFailed = Outcome.saved p from h) (by simp)
      | ok path =>
        show vid ∈ st1.processed
        rw [hp]
        exact self_mem_insertId vid _

theorem processUrl_saved_mem (env : Env) (args : Args) (st : St) (u x p : Str)
    (hx : extract_video_id u = .ok x)
    (h : (processUrl env args st u).2.outcome = .saved p) :
    x ∈ (processUrl env args st u).1.processed := by
  simp only [processUrl, hx] at h ⊢
  by_cases hd : is_duplicate st x = true
  · rw [if_pos hd] at h
    exact absurd h (by simp)
  · rw [if_neg hd] at h ⊢
    by_cases he : (file_exists st.dir x && !args.overwrite) = true
    · rw [if_pos he] at h ⊢
      by_cases hs : args.skipExisting = true
      · rw [if_pos hs] at h
        exact absurd h (by simp)
      · rw [if_neg hs] at h ⊢
        exact fetchAndSave_saved_mem env st x u true p h
    · rw [if_neg he] at h ⊢
      exact fetchAndSave_saved_mem env st x u false p h

theorem runBatch_append (env : Env) (args : Args) (a b : List Str) (st : St) :
    runBatch env args st (a ++ b) =
      ((runBatch env args (runBatch env args st a).1 b).1,
       (runBatch env args st a).2 ++ (runBatch env args (runBatch env args st a).1 b).2) := by
  induction a generalizing st with
  | nil => simp [runBatch]
  | cons u us ih =>
    simp only [List.cons_append, runBatch, List.append_eq]
    rw [ih]

theorem runBatch_length (env : Env) (args : Args) (l : List Str) (st : St) :
    (runBatch env args st l).2.length = l.length := by
  induction l generalizing st with
  | nil => rfl
  | cons u us ih =>
    simp only [runBatch, List.length_cons, ih]

theorem fetchAndSave_capCalled (env : Env) (st : St) (vid u : Str) (warned : Bool) :
    (fetchAndSave env st vid u warned).2.capCalled = true := by
  cases hgt : get_transcript env u with
  | none => simp only [fetchAndSave, hgt]
  | some t =>
    simp only [fetchAndSave, hgt]
    by_cases hte : t.isEmpty = true
    · rw [if_pos hte]
    · rw [if_neg hte]
      rcases hsv : save_transcript env st vid u (get_video_info env vid) t with ⟨st1, res⟩
      cases res with
      | error e => rfl
      | ok path => rfl

theorem fetchAndSave_outcome_ne_duplicate (env : Env) (st : St) (vid u : Str) (warned : Bool) :
    (fetchAndSave env st vid u warned).2.outcome ≠ .duplicate := by
  cases hgt : get_transcript env u with
  | none => simp [fetchAndSave, hgt]
  | some t =>
    simp only [fetchAndSave, hgt]
    by_cases hte : t.isEmpty = true
    · rw [if_pos hte]
      simp
    · rw [if_neg hte]
      rcases hsv : save_transcript env st vid u (get_video_info env vid) t with ⟨st1, res⟩
      cases res with
      | error e => simp
      | ok path => simp

/-- C1: in every input batch in which two references normalize to the same
identifier and the occurrence at position `pre.length` is successfully
saved, every later occurrence of that identifier is reported as a
run-duplicate: the step returns the duplicate trace with the caption fetch
and the metadata fetch both not invoked, the trace at the later position in
the full batch run is that duplicate trace, and the duplicate counter is
incremented by exactly one at that step. -/
theorem c1_later_occurrence_duplicate (env : Env) (args : Args) (st0 : St)
    (pre mid post : List Str) (u u2 x p : Str)
    (hu : extract_video_id u = .ok x) (hu2 : extract_video_id u2 = .ok x)
    (hsaved : (processUrl env args (runBatch env args st0 pre).1 u).2.outcome = .saved p) :
    processUrl env args (runBatch env args st0 (pre ++ u :: mid)).1 u2 =
      ({ (runBatch env args st0 (pre ++ u :: mid)).1 with
          duplicates := (runBatch env args st0 (pre ++ u :: mid)).1.duplicates + 1 },
       ⟨false, false, false, .duplicate⟩) ∧
    (runBatch env args st0 ((pre ++ u :: mid) ++ u2 :: post)).2.get?
      (pre.length + 1 + mid.length) = some ⟨false, false, false, .duplicate⟩ ∧
    (runBatch env args st0 ((pre ++ u :: mid) ++ [u2])).1.duplicates =
      (runBatch env args st0 (pre ++ u :: mid)).1.duplicates + 1 := by
  have hmem2 : x ∈ (processUrl env args (runBatch env args st0 pre).1 u).1.processed :=
    processUrl_saved_mem env args _ u x p hu hsaved
  have hkey : (runBatch env args st0 (pre ++ u :: mid)).1 =
      (runBatch env args (processUrl env args (runBatch env args st0 pre).1 u).1 mid).1 := by
    rw [runBatch_append]
    simp only [runBatch]
  have hmem : x ∈ (runBatch env args st0 (pre ++ u :: mid)).1.processed := by
    rw [hkey]
    exact runBatch_processed_mem env args mid _ x hmem2
  have hdup := processUrl_duplicate env args (runBatch env args st0 (pre ++ u :: mid)).1 u2 x
    hu2 hmem
  refine ⟨hdup, ?_, ?_⟩
  · have happ := runBatch_append env args (pre ++ u :: mid) (u2 :: post) st0
    have hlenTA : (runBatch env args st0 (pre ++ u :: mid)).2.length =
        pre.length + 1 + mid.length := by
      rw [runBatch_length]
      simp only [List.length_append, List.length_cons]
      omega
    rw [happ]
    simp only []
    rw [List.get?_append_right hlenTA.le, hlenTA, Nat.sub_self]
    simp only [runBatch]
    rw [hdup]
    rfl
  · have happ := runBatch_append env args (pre ++ u :: mid) [u2] st0
    rw [happ]
    simp only [runBatch]
    rw [hdup]

/-- C3: for a reference whose identifier the detector reports as existing
and that is not a run-duplicate: with `skip-existing` set and `overwrite`
unset no write occurs and the skip counter increments; with both flags
unset the warning is emitted (`warned` is true in the trace) but the
orchestrator still proceeds to fetch and write; with `overwrite` set the
existing artifact is ignored and the orchestrator proceeds to fetch and
write without warning. -/
theorem c3_existing_artifact_policy (env : Env) (st : St) (u x t : Str) (sk : Bool)
    (hx : extract_video_id u = .ok x)
    (hnm : x ∉ st.processed)
    (hex : file_exists st.dir x = true)
    (hcap : env.captionApi x = some t) (ht : t.isEmpty = false)
    (hw : env.writeFails (generate_filename x (some (get_video_info env x).title)
      (some (get_video_info env x).author)) = false) :
    processUrl env ⟨true, false⟩ st u =
      ({ st with skipped := st.skipped + 1 }, ⟨false, false, false, .skippedExisting⟩) ∧
    processUrl env ⟨false, false⟩ st u =
      ({ st with
          processed := insertId x st.processed,
          dir := writeFile st.dir
            (generate_filename x (some (get_video_info env x).title)
              (some (get_video_info env x).author))
            (mkContent (get_video_info env x).title (get_video_info env x).author u t),
          success := st.success + 1 },
       ⟨true, true, true,
        .saved (generate_filename x (some (get_video_info env x).title)
          (some (get_video_info env x).author))⟩) ∧
    processUrl env ⟨sk, true⟩ st u =
      ({ st with
          processed := insertId x st.processed,
          dir := writeFile st.dir
            (generate_filename x (some (get_video_info env x).title)
              (some (get_video_info env x).author))
            (mkContent (get_video_info env x).title (get_video_info env x).author u t),
          success := st.success + 1 },
       ⟨true, true, false,
        .saved (generate_filename x (some (get_video_info env x).title)
          (some (get_video_info env x).author))⟩) := by
  refine ⟨processUrl_skip env ⟨true, false⟩ st u x hx hnm hex rfl rfl, ?_, ?_⟩
  · rw [processUrl_gate env ⟨false, false⟩ st u x hx hnm (by rw [hex]; rfl)]
    have hwarn : (file_exists st.dir x && !(Args.mk false false).overwrite) = true := by
      rw [hex]
      rfl
    rw [hwarn]
    exact fetchAndSave_saved env st x u true t hx hcap ht hw
  · rw [processUrl_gate env ⟨sk, true⟩ st u x hx hnm (by simp)]
    have hwarn : (file_exists st.dir x && !(Args.mk sk true).overwrite) = false := by
      simp
    rw [hwarn]
    exact fetchAndSave_saved env st x u false t hx hcap ht hw

/-- C4: for a syntactically valid reference that reaches the caption fetch
and whose fetch fails, the state is returned unchanged (no counter is
incremented, nothing is written, the identifier is not added to the
run-scoped set), the batch continues with the next reference, and a later
occurrence of the same identifier against this state retries the fetch
instead of being reported as a run-duplicate. -/
theorem c4_fetch_failure (env : Env) (args : Args) (st : St) (u u2 : Str) (us : List Str)
    (x : Str)
    (hx : extract_video_id u = .ok x)
    (hnm : x ∉ st.processed)
    (hgate : (file_exists st.dir x && !args.overwrite && args.skipExisting) = false)
    (hcap : env.captionApi x = none)
    (hx2 : extract_video_id u2 = .ok x) :
    processUrl env args st u =
      (st, ⟨true, false, file_exists st.dir x && !args.overwrite, .fetchFailed⟩) ∧
    runBatch env args st (u :: us) =
      ((runBatch env args st us).1,
       ⟨true, false, file_exists st.dir x && !args.overwrite, .fetchFailed⟩ ::
         (runBatch env args st us).2) ∧
    (processUrl env args st u2).2.capCalled = true ∧
    (processUrl env args st u2).2.outcome ≠ .duplicate := by
  have h1 : processUrl env args st u =
      (st, ⟨true, false, file_exists st.dir x && !args.overwrite, .fetchFailed⟩) := by
    rw [processUrl_gate env args st u x hx hnm hgate]
    exact fetchAndSave_fetchFailed env st x u _ hx hcap
  refine ⟨h1, ?_, ?_, ?_⟩
  · simp only [runBatch]
    rw [h1]
  · rw [processUrl_gate env args st u2 x hx2 hnm hgate]
    exact fetchAndSave_capCalled env st x u2 _
  · rw [processUrl_gate env args st u2 x hx2 hnm hgate]
    exact fetchAndSave_outcome_ne_duplicate env st x u2 _

/-- C9: for a reference whose caption fetch succeeds while the metadata
fetch fails, an artifact is still written and its header uses the fallback
title `YouTube Video <id>` and the fallback author `YouTube Creator`;
metadata failure never prevents the save (the step counts a success). -/
theorem c9_metadata_fallback (env : Env) (args : Args) (st : St) (u x t : Str)
    (hx : extract_video_id u = .ok x)
    (hnm : x ∉ st.processed)
    (hgate : (file_exists st.dir x && !args.overwrite && args.skipExisting) = false)
    (hcap : env.captionApi x = some t) (ht : t.isEmpty = false)
    (hmeta : env.oembed x = none)
    (hw : env.writeFails (generate_filename x (some ("YouTube Video ".toList ++ x))
      (some ("YouTube Creator".toList))) = false) :
    processUrl env args st u =
      ({ st with
          processed := insertId x st.processed,
          dir := writeFile st.dir
            (generate_filename x (some ("YouTube Video ".toList ++ x))
              (some ("YouTube Creator".toList)))
            (mkContent ("YouTube Video ".toList ++ x) ("YouTube Creator".toList) u t),
          success := st.success + 1 },
       ⟨true, true, file_exists st.dir x && !args.overwrite,
        .saved (generate_filename x (some ("YouTube Video ".toList ++ x))
          (some ("YouTube Creator".toList)))⟩) := by
  have hinfo : get_video_info env x =
      ⟨"YouTube Video ".toList ++ x, "YouTube Creator".toList⟩ := by
    simp only [get_video_info, hmeta]
  have hw2 : env.writeFails (generate_filename x (some (get_video_info env x).title)
      (some (get_video_info env x).author)) = false := by
    rw [hinfo]
    exact hw
  rw [processUrl_gate env args st u x hx hnm hgate,
    fetchAndSave_saved env st x u _ t hx hcap ht hw2, hinfo]

/-- C10: `save_transcript` adds the identifier to the run-scoped set
before attempting the file write, so on a write failure the identifier
stays marked even though nothing was persisted and no counter changed, and
a later occurrence of the same identifier in the batch is reported as a
run-duplicate instead of being retried. -/
theorem c10_marked_on_save_failure (env : Env) (args : Args) (st : St) (u u2 x t : Str)
    (info : VideoInfo)
    (hx : extract_video_id u = .ok x)
    (hnm : x ∉ st.processed)
    (hgate : (file_exists st.dir x && !args.overwrite && args.skipExisting) = false)
    (hcap : env.captionApi x = some t) (ht : t.isEmpty = false)
    (hwf : env.writeFails (generate_filename x (some (get_video_info env x).title)
      (some (get_video_info env x).author)) = true)
    (hwInfo : env.writeFails (generate_filename x (some info.title) (some info.author)) = true)
    (hx2 : extract_video_id u2 = .ok x) :
    save_transcript env st x u info t =
      ({ st with processed := insertId x st.processed }, .error .persistenceFailure) ∧
    processUrl env args st u =
      ({ st with processed := insertId x st.processed },
       ⟨true, true, file_exists st.dir x && !args.overwrite, .saveFailed⟩) ∧
    x ∈ (processUrl env args st u).1.processed ∧
    (processUrl env args st u).1.dir = st.dir ∧
    processUrl env args (processUrl env args st u).1 u2 =
      ({ (processUrl env args st u).1 with
          duplicates := (processUrl env args st u).1.duplicates + 1 },
       ⟨false, false, false, .duplicate⟩) := by
  have h1 : save_transcript env st x u info t =
      ({ st with processed := insertId x st.processed }, .error .persistenceFailure) := by
    simp only [save_transcript]
    rw [if_pos hwInfo]
  have h2 : processUrl env args st u =
      ({ st with processed := insertId x st.processed },
       ⟨true, true, file_exists st.dir x && !args.overwrite, .saveFailed⟩) := by
    rw [processUrl_gate env args st u x hx hnm hgate]
    exact fetchAndSave_saveFailed env st x u _ t hx hcap ht hwf
  have h3 : x ∈ (processUrl env args st u).1.processed := by
    rw [h2]
    exact self_mem_insertId x st.processed
  refine ⟨h1, h2, h3, ?_, ?_⟩
  · rw [h2]
  · exact processUrl_duplicate env args _ u2 x hx2 h3

/-- Witness for C1: a two-element batch holding a short link and a watch
URL for the same video; the second occurrence is traced as a duplicate with
no fetch invoked. -/
theorem c1_witness :
    (processUrl testEnv ⟨false, false⟩
      (runBatch testEnv ⟨false, false⟩ initSt
        (([] : List Str) ++ "https://youtu.be/abc".toList :: [])).1
      "https://www.youtube.com/watch?v=abc".toList).2 =
      ⟨false, false, false, .duplicate⟩ := by
  have h := c1_later_occurrence_duplicate testEnv ⟨false, false⟩ initSt [] [] []
    "https://youtu.be/abc".toList "https://www.youtube.com/watch?v=abc".toList
    "abc".toList ("abc_YouTube Creator_YouTube Video abc.md".toList)
    (by rfl) (by rfl) (by rfl)
  exact congrArg Prod.snd h.1

/-- Witness for C3 over a directory already holding `abc_x.md`. -/
theorem c3_witness :
    (processUrl testEnv ⟨true, false⟩
      (⟨[], [("abc_x.md".toList, [])], 0, 0, 0⟩ : St)
      "https://youtu.be/abc".toList).2.outcome = .skippedExisting ∧
    (processUrl testEnv ⟨false, false⟩
      (⟨[], [("abc_x.md".toList, [])], 0, 0, 0⟩ : St)
      "https://youtu.be/abc".toList).2.warned = true ∧
    (processUrl testEnv ⟨false, true⟩
      (⟨[], [("abc_x.md".toList, [])], 0, 0, 0⟩ : St)
      "https://youtu.be/abc".toList).2.outcome =
      .saved ("abc_YouTube Creator_YouTube Video abc.md".toList) := by
  have h := c3_existing_artifact_policy testEnv
    (⟨[], [("abc_x.md".toList, [])], 0, 0, 0⟩ : St) "https://youtu.be/abc".toList
    "abc".toList "hello world".toList false
    (by rfl) (by simp) (by rfl) (by rfl) (by rfl) (by rfl)
  exact ⟨congrArg (fun r => r.2.outcome) h.1, congrArg (fun r => r.2.warned) h.2.1,
    congrArg (fun r => r.2.outcome) h.2.2⟩

/-- Witness for C4 at an identifier with no available captions. -/
theorem c4_witness :
    (processUrl testEnv ⟨false, false⟩ initSt "https://youtu.be/zzz".toList).2.outcome =
      .fetchFailed ∧
    (processUrl testEnv ⟨false, false⟩ initSt "https://youtu.be/zzz".toList).1 = initSt := by
  have h := c4_fetch_failure testEnv ⟨false, false⟩ initSt "https://youtu.be/zzz".toList
    "https://youtu.be/zzz".toList [] "zzz".toList (by rfl) (by decide) (by rfl) (by rfl) (by rfl)
  exact ⟨congrArg (fun r => r.2.outcome) h.1, congrArg Prod.fst h.1⟩

/-- Witness for C9 in the sample environment, whose oEmbed request always
fails. -/
theorem c9_witness :
    (processUrl testEnv ⟨false, false⟩ initSt "https://youtu.be/abc".toList).2.outcome =
      .saved ("abc_YouTube Creator_YouTube Video abc.md".toList) ∧
    (processUrl testEnv ⟨false, false⟩ initSt "https://youtu.be/abc".toList).1.dir =
      writeFile ([] : Dir) ("abc_YouTube Creator_YouTube Video abc.md".toList)
        (mkContent ("YouTube Video ".toList ++ "abc".toList) ("YouTube Creator".toList)
          "https://youtu.be/abc".toList "hello world".toList) := by
  have h := c9_metadata_fallback testEnv ⟨false, false⟩ initSt "https://youtu.be/abc".toList
    "abc".toList "hello world".toList
    (by rfl) (by decide) (by rfl) (by rfl) (by rfl) (by rfl) (by rfl)
  exact ⟨congrArg (fun r => r.2.outcome) h, congrArg (fun r => r.1.dir) h⟩

/-- Witness for C10 in the sample environment whose writes always fail. -/
theorem c10_witness :
    (processUrl testEnvWF ⟨false, false⟩ initSt "https://youtu.be/abc".toList).1.processed =
      ["abc".toList] ∧
    (processUrl testEnvWF ⟨false, false⟩ initSt "https://youtu.be/abc".toList).1.dir = [] ∧
    (processUrl testEnvWF ⟨false, false⟩
      (processUrl testEnvWF ⟨false, false⟩ initSt "https://youtu.be/abc".toList).1
      "https://www.youtube.com/watch?v=abc".toList).2.outcome = .duplicate := by
  have h := c10_marked_on_save_failure testEnvWF ⟨false, false⟩ initSt
    "https://youtu.be/abc".toList "https://www.youtube.com/watch?v=abc".toList
    "abc".toList "hello world".toList ⟨[], []⟩
    (by rfl) (by decide) (by rfl) (by rfl) (by rfl) (by rfl) (by rfl) (by rfl)
  exact ⟨congrArg (fun r => r.1.processed) h.2.1, h.2.2.2.1,
    congrArg (fun r => r.2.outcome) h.2.2.2.2⟩

/-- C7 counterexample: the accepted URL shapes for one video do not always
yield the identical identifier.  When the trailing query of a short link
contains a slash, the code takes the last `/`-segment before stripping the
query: `https://youtu.be/abc?si=4/2` yields identifier `2`, while the
canonical watch URL for the same video yields `abc`. -/
theorem c7_counterexample :
    extract_video_id ("https://youtu.be/abc?si=4/2".toList) = .ok ['2'] ∧
    extract_video_id ("https://www.youtube.com/watch?v=abc".toList) = .ok "abc".toList ∧
    (['2'] : Str) ≠ "abc".toList :=
  ⟨by rfl, by rfl, by decide⟩
